import Mathlib

/-!
Verification of the `ip-alloc-lookup` crate: an offline IP-to-country
classifier built from RIPE NCC delegated-statistics text.

The development shallowly embeds the crate's core (src/lib.rs,
src/database.rs and the build-time parser in build.rs) into Lean:

* Rust `&str` values are modelled as `List Char` (the crate only ever
  manipulates ASCII data);
* Rust `u32` / `u128` values are modelled as `Nat` together with explicit
  `% 2 ^ 32`, saturating and wrapping operations where the source uses
  casts, `saturating_add` / `saturating_sub`, or (release-mode) wrapping
  subtraction;
* the address parsers for `Ipv4Addr` / `Ipv6Addr` follow the grammar of
  Rust's `core::net` parser (decimal octets without leading zeros for
  IPv4; `:`-separated hex groups, one optional `::`, optional embedded
  IPv4 tail for IPv6);
* `slice::binary_search_by_key` and the hand-written upper-bound loop of
  `lookup_v6` are modelled as fuel-indexed structural recursions whose
  fuel (`hi - lo` at the initial call) is provably sufficient;
* `Vec::sort_by_key` (a stable sort) is modelled as a stable insertion
  sort on the same key.
-/

/-! ## Characters and strings -/

/-- Split a character list at every occurrence of `sep`, keeping empty
pieces, as Rust's `str::split(char)` does. -/
def splitOnChar (sep : Char) : List Char → List (List Char)
  | [] => [[]]
  | c :: t =>
    if c = sep then [] :: splitOnChar sep t
    else
      match splitOnChar sep t with
      | [] => [[c]]
      | h :: r => (c :: h) :: r

/-- Does the line begin with the character `c`?  Models `str::starts_with(char)`. -/
def startsWithChar (c : Char) : List Char → Bool
  | [] => false
  | h :: _ => h = c

/-- `beginsWith needle hay` holds when `needle` is an initial segment of `hay`. -/
def beginsWith : List Char → List Char → Bool
  | [], _ => true
  | _ :: _, [] => false
  | c :: cs, h :: hs => c = h && beginsWith cs hs

/-- Substring test, models `str::contains(&str)`. -/
def containsSeq : List Char → List Char → Bool
  | [], needle => beginsWith needle []
  | h :: t, needle => beginsWith needle (h :: t) || containsSeq t needle

/-- Strip one trailing carriage return, as Rust's `str::lines` does per line. -/
def stripCr (l : List Char) : List Char :=
  match l.getLast? with
  | some c => if c = '\r' then l.dropLast else l
  | none => l

/-- Model of Rust's `str::lines`: split on a newline, drop a final empty
piece (so a trailing newline does not create an empty line), and strip a
trailing carriage return from every line. -/
def rustLines (s : List Char) : List (List Char) :=
  let parts := splitOnChar '\n' s
  let parts := if parts.getLast? = some [] then parts.dropLast else parts
  parts.map stripCr

/-! ## Numeric field parsing (Rust `u32::from_str`) -/

/-- Decimal digit test. -/
def isDigitCh (c : Char) : Bool := '0' ≤ c && c ≤ '9'

/-- Accumulate decimal digits with the `u32` bound checked at every step,
mirroring the checked arithmetic in Rust's `from_str_radix`.  Fails on the
first non-digit character or on overflow. -/
def decDigitsAux : List Char → Nat → Option Nat
  | [], acc => some acc
  | c :: t, acc =>
    if isDigitCh c then
      let v := acc * 10 + (c.toNat - 48)
      if v < 2 ^ 32 then decDigitsAux t v else none
    else none

/-- Model of `str::parse::<u32>()`: an optional leading plus sign followed
by one or more decimal digits whose value fits in 32 bits.  A leading
minus sign, an empty digit string, interior junk and overflow all fail. -/
def parse_u32 (s : List Char) : Option Nat :=
  let ds := match s with
    | '+' :: t => t
    | other => other
  if ds = [] then none else decDigitsAux ds 0

example : parse_u32 ("256".toList) = some 256 := by decide
example : parse_u32 ("4294967296".toList) = none := by decide
example : parse_u32 ("+7".toList) = some 7 := by decide
example : parse_u32 ("-0".toList) = none := by decide
example : splitOnChar '|' ("a|b|".toList) = ["a".toList, "b".toList, []] := by decide
example : containsSeq ("xipv4y".toList) ("ipv4".toList) = true := by decide
example : rustLines ("a\nb\n".toList) = ["a".toList, "b".toList] := by decide

/-! ## Address parsing (Rust `core::net` textual grammar)

The crate calls `parts[3].parse::<Ipv4Addr>()` / `parse::<Ipv6Addr>()`.
The functions below follow the grammar of Rust's address parser
(`core::net::parser`): consuming readers over a `List Char` that return
the parsed value and the unconsumed rest, with `Option` providing the
atomic backtracking of `read_atomically`. -/

/-- Value of a digit in the given radix (10 or 16), models `char::to_digit`. -/
def digitVal (radix : Nat) (c : Char) : Option Nat :=
  if '0' ≤ c && c ≤ '9' then
    let v := c.toNat - 48
    if v < radix then some v else none
  else if 'a' ≤ c && c ≤ 'f' then
    let v := c.toNat - 97 + 10
    if v < radix then some v else none
  else if 'A' ≤ c && c ≤ 'F' then
    let v := c.toNat - 65 + 10
    if v < radix then some v else none
  else none

/-- Digit-consuming loop of `Parser::read_number`: reads digits greedily,
failing if the digit count exceeds `maxDigits` or the checked arithmetic
of the target integer type (bound `maxVal`, inclusive) overflows.
Returns the value, the number of digits read and the rest. -/
def readNumAux (radix maxDigits maxVal : Nat) : List Char → Nat → Nat → Option (Nat × Nat × List Char)
  | [], acc, cnt => some (acc, cnt, [])
  | c :: t, acc, cnt =>
    match digitVal radix c with
    | none => some (acc, cnt, c :: t)
    | some d =>
      if cnt + 1 > maxDigits then none
      else
        let v := acc * radix + d
        if v ≤ maxVal then readNumAux radix maxDigits maxVal t v (cnt + 1) else none

/-- Model of `Parser::read_number`: at least one digit, at most `maxDigits`
digits, checked against `maxVal`, optionally rejecting a leading zero
followed by further digits. -/
def readNumber (radix maxDigits maxVal : Nat) (allowZeroStart : Bool) (cs : List Char) :
    Option (Nat × List Char) :=
  let leadingZero := startsWithChar '0' cs
  match readNumAux radix maxDigits maxVal cs 0 0 with
  | none => none
  | some (v, cnt, rest) =>
    if cnt = 0 then none
    else if !allowZeroStart && leadingZero && cnt > 1 then none
    else some (v, rest)

/-- Consume one expected character. -/
def expectChar (c : Char) : List Char → Option (List Char)
  | [] => none
  | h :: t => if h = c then some t else none

/-- One IPv4 octet: `read_number(10, Some(3), false)` into a `u8`. -/
def readOctet (cs : List Char) : Option (Nat × List Char) :=
  readNumber 10 3 255 false cs

/-- Model of `Parser::read_ipv4_addr`: four octets separated by dots.
Returns the address as a number below `2 ^ 32` and the rest of the input. -/
def readIpv4 (cs : List Char) : Option (Nat × List Char) := do
  let (a, cs) ← readOctet cs
  let cs ← expectChar '.' cs
  let (b, cs) ← readOctet cs
  let cs ← expectChar '.' cs
  let (c, cs) ← readOctet cs
  let cs ← expectChar '.' cs
  let (d, cs) ← readOctet cs
  pure (((a * 256 + b) * 256 + c) * 256 + d, cs)

/-- Model of `str::parse::<Ipv4Addr>()`: the whole input must be consumed. -/
def parse_ipv4 (s : List Char) : Option Nat :=
  match readIpv4 s with
  | some (v, []) => some v
  | _ => none

/-- One IPv6 group: `read_number(16, Some(4), true)` into a `u16`. -/
def readHexGroup (cs : List Char) : Option (Nat × List Char) :=
  readNumber 16 4 65535 true cs

/-- Loop body of `read_groups` in `Parser::read_ipv6_addr`: reads up to
`limit` colon-separated 16-bit hex groups into `acc`; at every position
other than the last it first tries an embedded IPv4 tail (which fills two
groups and stops with the flag set).  `rem` is the number of slots still
free, so `i = limit - rem`. -/
def readGroupsAux : Nat → Nat → Nat → List Char → List Nat → (List Nat × Bool × List Char)
  | 0, _, _, cs, acc => (acc, false, cs)
  | rem + 1, i, limit, cs, acc =>
    let tryV4 : Option (Nat × Nat × List Char) :=
      if i + 1 < limit then
        match (if 0 < i then expectChar ':' cs else some cs) with
        | none => none
        | some cs1 =>
          match readIpv4 cs1 with
          | none => none
          | some (v4, rest) => some (v4 / 65536, v4 % 65536, rest)
      else none
    match tryV4 with
    | some (hi16, lo16, rest) => (acc ++ [hi16, lo16], true, rest)
    | none =>
      match (if 0 < i then expectChar ':' cs else some cs) with
      | none => (acc, false, cs)
      | some cs1 =>
        match readHexGroup cs1 with
        | none => (acc, false, cs)
        | some (g, rest) => readGroupsAux rem (i + 1) limit rest (acc ++ [g])

/-- `read_groups` over `limit` fresh slots. -/
def readGroups (limit : Nat) (cs : List Char) : List Nat × Bool × List Char :=
  readGroupsAux limit 0 limit cs []

/-- Big-endian assembly of eight 16-bit groups into a 128-bit value. -/
def groupsToNat (gs : List Nat) : Nat :=
  gs.foldl (fun a g => a * 65536 + g) 0

/-- Model of `Parser::read_ipv6_addr`: a head of up to eight groups; if
fewer than eight, a `::` followed by a tail of at most `8 - head - 1`
groups, the gap being zero groups.  An embedded IPv4 tail is only legal
at the end, hence a head that ended in one but is short is rejected. -/
def readIpv6 (cs : List Char) : Option (Nat × List Char) :=
  let (head, headV4, cs1) := readGroups 8 cs
  if head.length = 8 then some (groupsToNat head, cs1)
  else if headV4 then none
  else
    match expectChar ':' cs1 with
    | none => none
    | some cs2 =>
      match expectChar ':' cs2 with
      | none => none
      | some cs3 =>
        let limit := 8 - (head.length + 1)
        let (tail, _, cs4) := readGroupsAux limit 0 limit cs3 []
        some (groupsToNat (head ++ List.replicate (8 - head.length - tail.length) 0 ++ tail), cs4)

/-- Model of `str::parse::<Ipv6Addr>()`: the whole input must be consumed. -/
def parse_ipv6 (s : List Char) : Option Nat :=
  match readIpv6 s with
  | some (v, []) => some v
  | _ => none

example : parse_ipv4 ("46.4.0.0".toList) = some 772014080 := by decide
example : parse_ipv4 ("46.4.00.0".toList) = none := by decide
example : parse_ipv4 ("1.2.3".toList) = none := by decide
example : parse_ipv4 ("1.2.3.256".toList) = none := by decide
example : parse_ipv6 ("::".toList) = some 0 := by decide
example : parse_ipv6 ("::1".toList) = some 1 := by decide
example : parse_ipv6 ("2a01:4f8::".toList) = some (704709880 * 2 ^ 96) := by decide
example : parse_ipv6 ("1:2:3:4:5:6:7:8".toList) =
    some (((((((0x1 * 65536 + 0x2) * 65536 + 0x3) * 65536 + 0x4) * 65536 + 0x5) * 65536
      + 0x6) * 65536 + 0x7) * 65536 + 0x8) := by decide
example : parse_ipv6 ("::ffff:1.2.3.4".toList) =
    some (65535 * 2 ^ 32 + ((258 * 256 + 3) * 256 + 4)) := by decide
example : parse_ipv6 ("1:2:3:4:5:6:7:8:9".toList) = none := by decide
example : parse_ipv6 ("1::2::3".toList) = none := by decide
example : parse_ipv6 ("banana".toList) = none := by decide

/-! ## Data model (src/database.rs, src/lib.rs) -/

/-- `GeoInfo` from src/database.rs: the stored classification of a range.
`region` holds the numeric discriminant of the `Region` enum (`region as u8`). -/
structure GeoInfo where
  country_code : List Char
  is_eu : Bool
  region : Nat
deriving DecidableEq, Inhabited

/-- The `Region` enum from src/database.rs. -/
inductive Region where
  | europeanUnion
  | europeNonEu
  | easternEurope
  | turkey
  | middleEast
  | northAfrica
  | centralAsia
  | gulfStates
  | other
deriving DecidableEq

/-- The explicit `#[repr(u8)]` discriminants of `Region`. -/
def Region.code : Region → Nat
  | .europeanUnion => 1
  | .europeNonEu => 2
  | .easternEurope => 3
  | .turkey => 4
  | .middleEast => 5
  | .northAfrica => 6
  | .centralAsia => 7
  | .gulfStates => 8
  | .other => 255

/-- The `EU_COUNTRIES` constant from src/database.rs (27 member states). -/
def EU_COUNTRIES : List (List Char) :=
  [['A','T'], ['B','E'], ['B','G'], ['H','R'], ['C','Y'], ['C','Z'], ['D','K'],
   ['E','E'], ['F','I'], ['F','R'], ['D','E'], ['G','R'], ['H','U'], ['I','E'],
   ['I','T'], ['L','V'], ['L','T'], ['L','U'], ['M','T'], ['N','L'], ['P','L'],
   ['P','T'], ['R','O'], ['S','K'], ['S','I'], ['E','S'], ['S','E']]

/-- `EU_COUNTRIES.contains(&country)`. -/
def eu_contains (c : List Char) : Bool := EU_COUNTRIES.contains c

/-- `determine_region` from src/database.rs: country code to coarse region. -/
def determine_region (c : List Char) : Region :=
  if eu_contains c then .europeanUnion
  else if c = ['G','B'] ∨ c = ['N','O'] ∨ c = ['C','H'] ∨ c = ['I','S'] ∨ c = ['L','I'] then
    .europeNonEu
  else if c = ['R','U'] ∨ c = ['U','A'] ∨ c = ['B','Y'] ∨ c = ['M','D'] then .easternEurope
  else if c = ['T','R'] then .turkey
  else if c = ['I','L'] ∨ c = ['P','S'] then .middleEast
  else if c = ['E','G'] ∨ c = ['T','N'] ∨ c = ['M','A'] ∨ c = ['D','Z'] then .northAfrica
  else if c = ['K','Z'] ∨ c = ['U','Z'] ∨ c = ['T','M'] ∨ c = ['K','G'] ∨ c = ['T','J'] then
    .centralAsia
  else if c = ['A','E'] ∨ c = ['S','A'] ∨ c = ['Q','A'] ∨ c = ['K','W'] ∨ c = ['B','H'] ∨
      c = ['O','M'] then .gulfStates
  else .other

/-- `cc2` from src/database.rs: the first two characters of the country
code, with a `"??"` fallback for short inputs. -/
def cc2 (c : List Char) : List Char :=
  match c with
  | a :: b :: _ => [a, b]
  | _ => ['?', '?']

/-- The `GeoInfo` built for a country in both constructors of `GeoIpDb`:
`is_eu` from the EU list, `region` from `determine_region`. -/
def country_geo (c : List Char) : GeoInfo :=
  { country_code := cc2 c, is_eu := eu_contains c, region := (determine_region c).code }

/-- `IpRange` from src/lib.rs: one parsed allocation block.  `count` is a
`u128` in the source, kept as a `Nat` bounded by the places producing it. -/
structure IpRange where
  start_v4 : Option Nat
  start_v6 : Option Nat
  count : Nat
  country : List Char
deriving DecidableEq, Inhabited

/-! ## The parser `parse_ripe_delegated` (src/lib.rs) -/

/-- `u128::MAX`. -/
def u128Max : Nat := 2 ^ 128 - 1

/-- Wrapping `u32` subtraction, Rust release-mode semantics of `a - b`. -/
def u32WrapSub (a b : Nat) : Nat := (a % 2 ^ 32 + 2 ^ 32 - b % 2 ^ 32) % 2 ^ 32

/-- The line filter of `parse_ripe_delegated`: keep lines that do not
start with a comment or summary marker and mention an address family. -/
def line_keep (line : List Char) : Bool :=
  !startsWithChar '#' line && !startsWithChar '2' line &&
    (containsSeq line ['i','p','v','4'] || containsSeq line ['i','p','v','6'])

/-- The `filter_map` closure of `parse_ripe_delegated`.  The count field
must parse for a record to be produced (the `?` operator); the start
address is parsed with `.ok()` alone, so its failure leaves the record in
place with no start address.  In the IPv6 branch the count field is a
prefix length and `128 - prefix_len` is computed in `u32` (wrapping in
release mode); a resulting `host_bits ≥ 128` saturates the count to
`u128::MAX`, otherwise the count is `1 << host_bits`. -/
def line_record (line : List Char) : Option IpRange :=
  let parts := splitOnChar '|' line
  if parts.length < 7 then none
  else
    let ip_type := parts.getD 2 []
    let country := parts.getD 1 []
    if ip_type = ['i','p','v','4'] then
      match parse_u32 (parts.getD 4 []) with
      | none => none
      | some cnt =>
        some { start_v4 := parse_ipv4 (parts.getD 3 []), start_v6 := none,
               count := cnt, country := country }
    else if ip_type = ['i','p','v','6'] then
      match parse_u32 (parts.getD 4 []) with
      | none => none
      | some p =>
        let host_bits := u32WrapSub 128 p
        let count := if host_bits ≥ 128 then u128Max else 2 ^ host_bits
        some { start_v4 := none, start_v6 := parse_ipv6 (parts.getD 3 []),
               count := count, country := country }
    else none

/-- `parse_ripe_delegated` from src/lib.rs. -/
def parse_ripe_delegated (content : List Char) : List IpRange :=
  ((rustLines content).filter line_keep).filterMap line_record

/-! ## Range tables and constructors (src/database.rs) -/

/-- One stored range: `(start, end, GeoInfo)`. -/
abbrev RangeEntry : Type := Nat × Nat × GeoInfo

/-- Default entry used by the total indexing in the lookup models. -/
def dEntry : RangeEntry := (0, 0, default)

/-- `u32::saturating_add`. -/
def u32SatAdd (a b : Nat) : Nat := min (a + b) (2 ^ 32 - 1)

/-- `u128::saturating_add`. -/
def u128SatAdd (a b : Nat) : Nat := min (a + b) u128Max

/-- Stable insertion of an entry into a list sorted by its first
component: the new element goes before the first strictly greater key,
after equal keys, so the overall sort is stable like `Vec::sort_by_key`. -/
def insertByStart {α : Type} (e : Nat × α) : List (Nat × α) → List (Nat × α)
  | [] => [e]
  | f :: t => if f.1 < e.1 then f :: insertByStart e t else e :: f :: t

/-- Model of `sort_by_key(|r| r.0)`: a stable sort by the first component.
Stable sorting by a key is a unique function, so the stable insertion
sort here agrees extensionally with Rust's stable merge sort. -/
def sortByStart {α : Type} (l : List (Nat × α)) : List (Nat × α) :=
  l.foldr insertByStart []

/-- `GeoIpDb` from src/database.rs: the two sorted range tables. -/
structure GeoIpDb where
  v4_ranges : List RangeEntry
  v6_ranges : List RangeEntry

/-- The IPv4 entry pushed for one parsed record in
`GeoIpDb::from_ripe_delegated_str`:
`end = start.saturating_add((r.count as u32).saturating_sub(1))`, the
cast truncating `count` to 32 bits and `Nat` subtraction supplying the
saturation at zero. -/
def recordV4Entry (r : IpRange) : Option RangeEntry :=
  match r.start_v4 with
  | some s => some (s, u32SatAdd s (r.count % 2 ^ 32 - 1), country_geo r.country)
  | none => none

/-- The IPv6 entry pushed for one parsed record (`else if` branch, so an
IPv4 start takes priority): `end = start.saturating_add(r.count.saturating_sub(1))`. -/
def recordV6Entry (r : IpRange) : Option RangeEntry :=
  match r.start_v4 with
  | some _ => none
  | none =>
    match r.start_v6 with
    | some s => some (s, u128SatAdd s (r.count - 1), country_geo r.country)
    | none => none

/-- `GeoIpDb::from_ripe_delegated_str`: parse, build both entry lists,
then sort each by start. -/
def from_ripe_delegated_str (content : List Char) : GeoIpDb :=
  let parsed := parse_ripe_delegated content
  { v4_ranges := sortByStart (parsed.filterMap recordV4Entry),
    v6_ranges := sortByStart (parsed.filterMap recordV6Entry) }

/-- `GeoIpDb::new`: turn the embedded constant tables
(`IPV4_RANGES` / `IPV6_RANGES`, each row `(start, end, country)`) into
range tables, entry for entry, in order and without sorting.  The
constants live in a generated file, so they are parameters here. -/
def GeoIpDb.new (ipv4Consts ipv6Consts : List (Nat × Nat × List Char)) : GeoIpDb :=
  { v4_ranges := ipv4Consts.map (fun row => (row.1, row.2.1, country_geo row.2.2)),
    v6_ranges := ipv6Consts.map (fun row => (row.1, row.2.1, country_geo row.2.2)) }

/-! ## The build-time parser (build.rs) -/

/-- The IPv4 arm of `parse_ripe_data` in build.rs for a single line:
`(start, count, country)`, dropping `count == 0`. -/
def buildV4Line (line : List Char) : Option (Nat × Nat × List Char) :=
  if startsWithChar '#' line || startsWithChar '2' line then none
  else
    let parts := splitOnChar '|' line
    if parts.length < 7 then none
    else if parts.getD 2 [] = ['i','p','v','4'] then
      match parse_ipv4 (parts.getD 3 []) with
      | none => none
      | some s =>
        match parse_u32 (parts.getD 4 []) with
        | none => none
        | some cnt => if cnt = 0 then none else some (s, cnt, parts.getD 1 [])
    else none

/-- The IPv6 arm of `parse_ripe_data` in build.rs for a single line:
`(start, end, country)` with `end = start.saturating_add(count).saturating_sub(1)`
and the same wrapping `128 - prefix_len` computation as the runtime parser. -/
def buildV6Line (line : List Char) : Option (Nat × Nat × List Char) :=
  if startsWithChar '#' line || startsWithChar '2' line then none
  else
    let parts := splitOnChar '|' line
    if parts.length < 7 then none
    else if parts.getD 2 [] = ['i','p','v','6'] then
      match parse_ipv6 (parts.getD 3 []) with
      | none => none
      | some s =>
        match parse_u32 (parts.getD 4 []) with
        | none => none
        | some p =>
          let host_bits := u32WrapSub 128 p
          let count := if host_bits ≥ 128 then u128Max else 2 ^ host_bits
          some (s, u128SatAdd s count - 1, parts.getD 1 [])
    else none

/-- `parse_ripe_data` from build.rs: both vectors, each sorted by start.
Note build.rs uses `content.lines()` as well. -/
def parse_ripe_data (content : List Char) :
    List (Nat × Nat × List Char) × List (Nat × Nat × List Char) :=
  let ls := rustLines content
  (sortByStart (ls.filterMap buildV4Line), sortByStart (ls.filterMap buildV6Line))

/-- The `IPV4_RANGES` constant emitted by `main` in build.rs: rows with
`count == 0` are skipped (again) and the inclusive end is
`start.saturating_add(count.saturating_sub(1))`. -/
def ipv4RangesConst (content : List Char) : List (Nat × Nat × List Char) :=
  (parse_ripe_data content).1.filterMap (fun row =>
    if row.2.1 = 0 then none
    else some (row.1, u32SatAdd row.1 (row.2.1 - 1), row.2.2))

/-- The `IPV6_RANGES` constant emitted by `main` in build.rs: the parsed
rows verbatim. -/
def ipv6RangesConst (content : List Char) : List (Nat × Nat × List Char) :=
  (parse_ripe_data content).2

/-! ## Lookup engine (src/database.rs) -/

/-- Fuel-indexed model of `slice::binary_search_by_key(&ip, |r| r.0)` on
`l` between `lo` (inclusive) and `hi` (exclusive): `Sum.inl i` is Rust's
`Ok(i)` (the key at `i` equals the target), `Sum.inr i` is `Err(i)` (the
insertion point).  The fuel only needs to dominate `hi - lo`, which
strictly shrinks every iteration. -/
def bsearchAux (l : List RangeEntry) (t : Nat) : Nat → Nat → Nat → Sum Nat Nat
  | 0, lo, _ => Sum.inr lo
  | fuel + 1, lo, hi =>
    if lo < hi then
      let mid := lo + (hi - lo) / 2
      let k := (l.getD mid dEntry).1
      if k < t then bsearchAux l t fuel (mid + 1) hi
      else if t < k then bsearchAux l t fuel lo mid
      else Sum.inl mid
    else Sum.inr lo

/-- `GeoIpDb::lookup_v4`: binary search on the start keys; on an exact
hit return that entry's info, otherwise check whether the predecessor
entry's inclusive range covers the address. -/
def GeoIpDb.lookup_v4 (db : GeoIpDb) (ip : Nat) : Option GeoInfo :=
  let rs := db.v4_ranges
  match bsearchAux rs ip rs.length 0 rs.length with
  | Sum.inl idx => some (rs.getD idx dEntry).2.2
  | Sum.inr idx =>
    if 0 < idx then
      let e := rs.getD (idx - 1) dEntry
      if e.1 ≤ ip ∧ ip ≤ e.2.1 then some e.2.2 else none
    else none

/-- Fuel-indexed model of the hand-written upper-bound loop in
`lookup_v6`: afterwards `lo` is the first index whose start exceeds the
address. -/
def ubAux (l : List RangeEntry) (t : Nat) : Nat → Nat → Nat → Nat
  | 0, lo, _ => lo
  | fuel + 1, lo, hi =>
    if lo < hi then
      let mid := lo + (hi - lo) / 2
      if t < (l.getD mid dEntry).1 then ubAux l t fuel lo mid
      else ubAux l t fuel (mid + 1) hi
    else lo

/-- `GeoIpDb::lookup_v6`: empty-table early return, upper-bound search,
then the inclusive-range check on the predecessor entry. -/
def GeoIpDb.lookup_v6 (db : GeoIpDb) (ip : Nat) : Option GeoInfo :=
  let rs := db.v6_ranges
  if rs.length = 0 then none
  else
    let lo := ubAux rs ip rs.length 0 rs.length
    if lo = 0 then none
    else
      let e := rs.getD (lo - 1) dEntry
      if e.1 ≤ ip ∧ ip ≤ e.2.1 then some e.2.2 else none

/-- `IpAddr`: either family. -/
inductive IpAddr where
  | v4 (a : Nat)
  | v6 (a : Nat)

/-- `GeoIpDb::lookup`: dispatch on the address family. -/
def GeoIpDb.lookup (db : GeoIpDb) (ip : IpAddr) : Option GeoInfo :=
  match ip with
  | .v4 a => db.lookup_v4 a
  | .v6 a => db.lookup_v6 a

/-- `GeoIpDb::is_eu`: `lookup(ip).map(|i| i.is_eu).unwrap_or(false)`. -/
def GeoIpDb.is_eu (db : GeoIpDb) (ip : IpAddr) : Bool :=
  ((db.lookup ip).map GeoInfo.is_eu).getD false

/-! ## Properties of the stable sort -/

theorem sortByStart_cons {α : Type} (f : Nat × α) (t : List (Nat × α)) :
    sortByStart (f :: t) = insertByStart f (sortByStart t) := rfl

theorem mem_insertByStart {α : Type} (e x : Nat × α) (l : List (Nat × α)) :
    x ∈ insertByStart e l ↔ x = e ∨ x ∈ l := by
  induction l with
  | nil => simp [insertByStart]
  | cons f t ih =>
    by_cases h : f.1 < e.1
    · simp only [insertByStart, if_pos h, List.mem_cons, ih]
      tauto
    · simp only [insertByStart, if_neg h, List.mem_cons]

theorem mem_sortByStart {α : Type} (l : List (Nat × α)) (x : Nat × α) :
    x ∈ sortByStart l ↔ x ∈ l := by
  induction l with
  | nil => simp [sortByStart]
  | cons f t ih =>
    rw [sortByStart_cons, mem_insertByStart]
    simp [ih]

theorem pairwise_insertByStart {α : Type} (e : Nat × α) (l : List (Nat × α))
    (h : List.Pairwise (fun a b => a.1 ≤ b.1) l) :
    List.Pairwise (fun a b => a.1 ≤ b.1) (insertByStart e l) := by
  induction l with
  | nil => simp [insertByStart]
  | cons f t ih =>
    rcases List.pairwise_cons.mp h with ⟨hf, ht⟩
    by_cases hlt : f.1 < e.1
    · rw [show insertByStart e (f :: t) = f :: insertByStart e t by
        simp [insertByStart, hlt]]
      refine List.pairwise_cons.mpr ⟨?_, ih ht⟩
      intro y hy
      rcases (mem_insertByStart e y t).mp hy with rfl | hyt
      · exact Nat.le_of_lt hlt
      · exact hf y hyt
    · rw [show insertByStart e (f :: t) = e :: f :: t by simp [insertByStart, hlt]]
      refine List.pairwise_cons.mpr ⟨?_, h⟩
      intro y hy
      rcases List.mem_cons.mp hy with rfl | hyt
      · omega
      · exact Nat.le_trans (by omega) (hf y hyt)

theorem pairwise_sortByStart {α : Type} (l : List (Nat × α)) :
    List.Pairwise (fun a b => a.1 ≤ b.1) (sortByStart l) := by
  induction l with
  | nil => simp [sortByStart]
  | cons f t ih => rw [sortByStart_cons]; exact pairwise_insertByStart f _ ih

theorem pairwise_key_filterMap {α β : Type} (f : α → Option (Nat × β)) (key : α → Nat)
    (hf : ∀ x y, f x = some y → y.1 = key x) (l : List α)
    (h : List.Pairwise (fun a b => key a ≤ key b) l) :
    List.Pairwise (fun a b => a.1 ≤ b.1) (l.filterMap f) := by
  induction l with
  | nil => simp
  | cons a t ih =>
    rcases List.pairwise_cons.mp h with ⟨ha, ht⟩
    rw [List.filterMap_cons]
    cases hfa : f a with
    | none => exact ih ht
    | some b =>
      refine List.pairwise_cons.mpr ⟨?_, ih ht⟩
      intro c hc
      rcases List.mem_filterMap.mp hc with ⟨x, hx, hfx⟩
      rw [hf a b hfa, hf x c hfx]
      exact ha x hx

/-! ## Well-formed range tables -/

/-- A range table as the lookup claims assume it: every entry is a
genuine inclusive range, and adjacent entries neither overlap nor appear
out of order (so the start keys are strictly increasing). -/
def tableWF (l : List RangeEntry) : Prop :=
  (∀ e ∈ l, e.1 ≤ e.2.1) ∧ List.Chain' (fun e f => e.2.1 < f.1) l

theorem tableWF_end_lt_start {l : List RangeEntry} (h : tableWF l) :
    ∀ i j, i < j → j < l.length → (l.getD i dEntry).2.1 < (l.getD j dEntry).1 := by
  obtain ⟨hse, hch⟩ := h
  have adj : ∀ k, k + 1 < l.length → (l.getD k dEntry).2.1 < (l.getD (k + 1) dEntry).1 := by
    intro k hk
    have hg := (List.chain'_iff_get.mp hch) k (by omega)
    rw [List.getD_eq_getElem l dEntry (by omega), List.getD_eq_getElem l dEntry hk]
    simpa [List.get_eq_getElem] using hg
  intro i j
  induction j with
  | zero => omega
  | succ n ihn =>
    intro hij hj
    rcases Nat.lt_or_ge i n with hin | hin
    · have h1 := ihn hin (by omega)
      have h2 : (l.getD n dEntry).1 ≤ (l.getD n dEntry).2.1 := by
        have hmem : l.getD n dEntry ∈ l := by
          rw [List.getD_eq_getElem l dEntry (by omega)]
          exact List.getElem_mem (by omega)
        exact hse _ hmem
      have h3 := adj n hj
      omega
    · have : i = n := by omega
      subst this
      exact adj i hj

theorem tableWF_start_mono {l : List RangeEntry} (h : tableWF l) :
    ∀ i j, i < j → j < l.length → (l.getD i dEntry).1 < (l.getD j dEntry).1 := by
  intro i j hij hj
  have h1 : (l.getD i dEntry).1 ≤ (l.getD i dEntry).2.1 := by
    have hmem : l.getD i dEntry ∈ l := by
      rw [List.getD_eq_getElem l dEntry (by omega)]
      exact List.getElem_mem (by omega)
    exact h.1 _ hmem
  have h2 := tableWF_end_lt_start h i j hij hj
  omega

/-! ## Correctness of the two binary searches -/

theorem bsearchAux_spec (l : List RangeEntry) (t : Nat)
    (mono : ∀ i j, i < j → j < l.length → (l.getD i dEntry).1 < (l.getD j dEntry).1) :
    ∀ fuel lo hi, lo ≤ hi → hi ≤ l.length → hi - lo ≤ fuel →
    (∀ k, k < lo → (l.getD k dEntry).1 < t) →
    (∀ k, hi ≤ k → k < l.length → t < (l.getD k dEntry).1) →
    (∀ m, bsearchAux l t fuel lo hi = Sum.inl m →
        m < l.length ∧ (l.getD m dEntry).1 = t) ∧
    (∀ m, bsearchAux l t fuel lo hi = Sum.inr m →
        m ≤ l.length ∧ (∀ k, k < m → (l.getD k dEntry).1 < t) ∧
        (∀ k, m ≤ k → k < l.length → t < (l.getD k dEntry).1)) := by
  intro fuel
  induction fuel with
  | zero =>
    intro lo hi hlh hhl hf hlo hhi
    refine ⟨fun m hm => by simp [bsearchAux] at hm, fun m hm => ?_⟩
    have hmeq : m = lo := by simpa [bsearchAux] using hm.symm
    have : lo = hi := by omega
    rw [hmeq]
    exact ⟨by omega, hlo, fun k hk1 hk2 => hhi k (by omega) hk2⟩
  | succ fuel ih =>
    intro lo hi hlh hhl hf hlo hhi
    by_cases hlt : lo < hi
    · have hdiv : (hi - lo) / 2 < hi - lo := Nat.div_lt_self (by omega) (by omega)
      have hmhi : lo + (hi - lo) / 2 < hi := by omega
      have hmlen : lo + (hi - lo) / 2 < l.length := by omega
      have heq : bsearchAux l t (fuel + 1) lo hi =
          (if (l.getD (lo + (hi - lo) / 2) dEntry).1 < t then
            bsearchAux l t fuel (lo + (hi - lo) / 2 + 1) hi
          else if t < (l.getD (lo + (hi - lo) / 2) dEntry).1 then
            bsearchAux l t fuel lo (lo + (hi - lo) / 2)
          else Sum.inl (lo + (hi - lo) / 2)) := by
        simp only [bsearchAux, if_pos hlt]
      by_cases hc1 : (l.getD (lo + (hi - lo) / 2) dEntry).1 < t
      · rw [heq, if_pos hc1]
        refine ih (lo + (hi - lo) / 2 + 1) hi (by omega) hhl (by omega) ?_ hhi
        intro k hk
        rcases Nat.lt_or_ge k (lo + (hi - lo) / 2) with hk2 | hk2
        · exact Nat.lt_trans (mono k _ hk2 hmlen) hc1
        · have : k = lo + (hi - lo) / 2 := by omega
          subst this
          exact hc1
      · by_cases hc2 : t < (l.getD (lo + (hi - lo) / 2) dEntry).1
        · rw [heq, if_neg hc1, if_pos hc2]
          refine ih lo (lo + (hi - lo) / 2) (by omega) (by omega) (by omega) hlo ?_
          intro k hk1 hk2
          rcases Nat.lt_or_ge (lo + (hi - lo) / 2) k with hk3 | hk3
          · exact Nat.lt_trans hc2 (mono _ k hk3 hk2)
          · have : k = lo + (hi - lo) / 2 := by omega
            subst this
            exact hc2
        · rw [heq, if_neg hc1, if_neg hc2]
          refine ⟨fun m hm => ?_, fun m hm => by simp at hm⟩
          have hmeq : m = lo + (hi - lo) / 2 := by simpa using hm.symm
          subst hmeq
          exact ⟨hmlen, by omega⟩
    · have heq : bsearchAux l t (fuel + 1) lo hi = Sum.inr lo := by
        simp only [bsearchAux, if_neg hlt]
      rw [heq]
      refine ⟨fun m hm => by simp at hm, fun m hm => ?_⟩
      have hmeq : m = lo := by simpa using hm.symm
      have : lo = hi := by omega
      rw [hmeq]
      exact ⟨by omega, hlo, fun k hk1 hk2 => hhi k (by omega) hk2⟩

theorem ubAux_spec (l : List RangeEntry) (t : Nat)
    (mono : ∀ i j, i < j → j < l.length → (l.getD i dEntry).1 < (l.getD j dEntry).1) :
    ∀ fuel lo hi, lo ≤ hi → hi ≤ l.length → hi - lo ≤ fuel →
    (∀ k, k < lo → (l.getD k dEntry).1 ≤ t) →
    (∀ k, hi ≤ k → k < l.length → t < (l.getD k dEntry).1) →
    ubAux l t fuel lo hi ≤ l.length ∧
    (∀ k, k < ubAux l t fuel lo hi → (l.getD k dEntry).1 ≤ t) ∧
    (∀ k, ubAux l t fuel lo hi ≤ k → k < l.length → t < (l.getD k dEntry).1) := by
  intro fuel
  induction fuel with
  | zero =>
    intro lo hi hlh hhl hf hlo hhi
    have : lo = hi := by omega
    simp only [ubAux]
    exact ⟨by omega, hlo, fun k hk1 hk2 => hhi k (by omega) hk2⟩
  | succ fuel ih =>
    intro lo hi hlh hhl hf hlo hhi
    by_cases hlt : lo < hi
    · have hdiv : (hi - lo) / 2 < hi - lo := Nat.div_lt_self (by omega) (by omega)
      have hmhi : lo + (hi - lo) / 2 < hi := by omega
      have hmlen : lo + (hi - lo) / 2 < l.length := by omega
      have heq : ubAux l t (fuel + 1) lo hi =
          (if t < (l.getD (lo + (hi - lo) / 2) dEntry).1 then
            ubAux l t fuel lo (lo + (hi - lo) / 2)
          else ubAux l t fuel (lo + (hi - lo) / 2 + 1) hi) := by
        simp only [ubAux, if_pos hlt]
      by_cases hc : t < (l.getD (lo + (hi - lo) / 2) dEntry).1
      · rw [heq, if_pos hc]
        refine ih lo (lo + (hi - lo) / 2) (by omega) (by omega) (by omega) hlo ?_
        intro k hk1 hk2
        rcases Nat.lt_or_ge (lo + (hi - lo) / 2) k with hk3 | hk3
        · exact Nat.lt_trans hc (mono _ k hk3 hk2)
        · have : k = lo + (hi - lo) / 2 := by omega
          subst this
          exact hc
      · rw [heq, if_neg hc]
        refine ih (lo + (hi - lo) / 2 + 1) hi (by omega) hhl (by omega) ?_ hhi
        intro k hk
        rcases Nat.lt_or_ge k (lo + (hi - lo) / 2) with hk2 | hk2
        · exact Nat.le_trans (Nat.le_of_lt (mono k _ hk2 hmlen)) (by omega)
        · have : k = lo + (hi - lo) / 2 := by omega
          subst this
          omega
    · have heq : ubAux l t (fuel + 1) lo hi = lo := by
        simp only [ubAux, if_neg hlt]
      rw [heq]
      have : lo = hi := by omega
      exact ⟨by omega, hlo, fun k hk1 hk2 => hhi k (by omega) hk2⟩

theorem lookup_v4_hit (v4 v6 : List RangeEntry) (a : Nat) (h : tableWF v4)
    (e : RangeEntry) (he : e ∈ v4) (h1 : e.1 ≤ a) (h2 : a ≤ e.2.1) :
    (GeoIpDb.mk v4 v6).lookup_v4 a = some e.2.2 := by
  obtain ⟨j, hj, hget⟩ := List.mem_iff_getElem.mp he
  have hgd : v4.getD j dEntry = e := by rw [List.getD_eq_getElem v4 dEntry hj, hget]
  have mono := tableWF_start_mono h
  have spec := bsearchAux_spec v4 a mono v4.length 0 v4.length (by omega) (by omega) (by omega)
      (fun k hk => by omega) (fun k hk1 hk2 => by omega)
  cases hbs : bsearchAux v4 a v4.length 0 v4.length with
  | inl m =>
    obtain ⟨hm, hkey⟩ := spec.1 m hbs
    have hjm : j = m := by
      rcases Nat.lt_trichotomy j m with hlt | heq | hgt
      · have hlt2 := tableWF_end_lt_start h j m hlt hm
        rw [hgd] at hlt2
        omega
      · exact heq
      · have hlt2 := tableWF_start_mono h m j hgt hj
        rw [hgd] at hlt2
        omega
    simp only [GeoIpDb.lookup_v4, hbs]
    rw [← hjm, hgd]
  | inr m =>
    obtain ⟨hmlen, hbelow, habove⟩ := spec.2 m hbs
    have hjm : j < m := by
      by_contra hge
      have hge2 : m ≤ j := by omega
      have := habove j hge2 hj
      rw [hgd] at this
      omega
    have hj1 : j = m - 1 := by
      by_contra hne
      have hlt : j + 1 < m := by omega
      have hb := hbelow (j + 1) hlt
      have hadj := tableWF_end_lt_start h j (j + 1) (by omega) (by omega)
      rw [hgd] at hadj
      omega
    simp only [GeoIpDb.lookup_v4, hbs]
    rw [if_pos (by omega : 0 < m)]
    rw [show m - 1 = j by omega, hgd]
    rw [if_pos ⟨h1, h2⟩]

theorem lookup_v4_miss (v4 v6 : List RangeEntry) (a : Nat) (h : tableWF v4)
    (hno : ∀ e ∈ v4, ¬ (e.1 ≤ a ∧ a ≤ e.2.1)) :
    (GeoIpDb.mk v4 v6).lookup_v4 a = none := by
  have mono := tableWF_start_mono h
  have spec := bsearchAux_spec v4 a mono v4.length 0 v4.length (by omega) (by omega) (by omega)
      (fun k hk => by omega) (fun k hk1 hk2 => by omega)
  cases hbs : bsearchAux v4 a v4.length 0 v4.length with
  | inl m =>
    obtain ⟨hm, hkey⟩ := spec.1 m hbs
    exfalso
    have hmem : v4.getD m dEntry ∈ v4 := by
      rw [List.getD_eq_getElem v4 dEntry hm]
      exact List.getElem_mem hm
    have hse := h.1 _ hmem
    exact hno _ hmem ⟨by omega, by omega⟩
  | inr m =>
    obtain ⟨hmlen, hbelow, habove⟩ := spec.2 m hbs
    simp only [GeoIpDb.lookup_v4, hbs]
    by_cases hpos : 0 < m
    · rw [if_pos hpos]
      have hmem : v4.getD (m - 1) dEntry ∈ v4 := by
        rw [List.getD_eq_getElem v4 dEntry (by omega)]
        exact List.getElem_mem (by omega)
      rw [if_neg (hno _ hmem)]
    · rw [if_neg hpos]

theorem lookup_v6_hit (v4 v6 : List RangeEntry) (a : Nat) (h : tableWF v6)
    (e : RangeEntry) (he : e ∈ v6) (h1 : e.1 ≤ a) (h2 : a ≤ e.2.1) :
    (GeoIpDb.mk v4 v6).lookup_v6 a = some e.2.2 := by
  obtain ⟨j, hj, hget⟩ := List.mem_iff_getElem.mp he
  have hgd : v6.getD j dEntry = e := by rw [List.getD_eq_getElem v6 dEntry hj, hget]
  have mono := tableWF_start_mono h
  obtain ⟨hrlen, hbelow, habove⟩ := ubAux_spec v6 a mono v6.length 0 v6.length
      (by omega) (by omega) (by omega) (fun k hk => by omega) (fun k hk1 hk2 => by omega)
  have hjr : j < ubAux v6 a v6.length 0 v6.length := by
    by_contra hge
    have hge2 : ubAux v6 a v6.length 0 v6.length ≤ j := by omega
    have := habove j hge2 hj
    rw [hgd] at this
    omega
  have hj1 : j = ubAux v6 a v6.length 0 v6.length - 1 := by
    by_contra hne
    have hlt : j + 1 < ubAux v6 a v6.length 0 v6.length := by omega
    have hb := hbelow (j + 1) hlt
    have hadj := tableWF_end_lt_start h j (j + 1) (by omega) (by omega)
    rw [hgd] at hadj
    omega
  simp only [GeoIpDb.lookup_v6]
  rw [if_neg (by omega : ¬ v6.length = 0)]
  rw [if_neg (by omega : ¬ ubAux v6 a v6.length 0 v6.length = 0)]
  rw [← hj1, hgd]
  rw [if_pos ⟨h1, h2⟩]

theorem lookup_v6_miss (v4 v6 : List RangeEntry) (a : Nat) (h : tableWF v6)
    (hno : ∀ e ∈ v6, ¬ (e.1 ≤ a ∧ a ≤ e.2.1)) :
    (GeoIpDb.mk v4 v6).lookup_v6 a = none := by
  have mono := tableWF_start_mono h
  obtain ⟨hrlen, hbelow, habove⟩ := ubAux_spec v6 a mono v6.length 0 v6.length
      (by omega) (by omega) (by omega) (fun k hk => by omega) (fun k hk1 hk2 => by omega)
  simp only [GeoIpDb.lookup_v6]
  by_cases hlen : v6.length = 0
  · rw [if_pos hlen]
  · rw [if_neg hlen]
    by_cases hz : ubAux v6 a v6.length 0 v6.length = 0
    · rw [if_pos hz]
    · rw [if_neg hz]
      have hmem : v6.getD (ubAux v6 a v6.length 0 v6.length - 1) dEntry ∈ v6 := by
        rw [List.getD_eq_getElem v6 dEntry (by omega)]
        exact List.getElem_mem (by omega)
      rw [if_neg (hno _ hmem)]

/-- C1: over any sorted, non-overlapping range table of well-formed
inclusive ranges, `lookup_v4` and `lookup_v6` return the classification
of the entry containing the queried address when one exists, and `none`
when no entry contains it (below the first start, inside a gap, above
the last end, or the table empty).  The model's total `getD` indexing and
the proof itself show no out-of-bounds access is needed. -/
theorem c1_lookup_correct (v4 v6 : List RangeEntry) (a4 a6 : Nat)
    (h4 : tableWF v4) (h6 : tableWF v6) :
    ((∀ e ∈ v4, e.1 ≤ a4 → a4 ≤ e.2.1 → (GeoIpDb.mk v4 v6).lookup_v4 a4 = some e.2.2) ∧
      ((∀ e ∈ v4, ¬ (e.1 ≤ a4 ∧ a4 ≤ e.2.1)) → (GeoIpDb.mk v4 v6).lookup_v4 a4 = none)) ∧
    ((∀ e ∈ v6, e.1 ≤ a6 → a6 ≤ e.2.1 → (GeoIpDb.mk v4 v6).lookup_v6 a6 = some e.2.2) ∧
      ((∀ e ∈ v6, ¬ (e.1 ≤ a6 ∧ a6 ≤ e.2.1)) → (GeoIpDb.mk v4 v6).lookup_v6 a6 = none)) :=
  ⟨⟨fun e he h1 h2 => lookup_v4_hit v4 v6 a4 h4 e he h1 h2,
    fun hno => lookup_v4_miss v4 v6 a4 h4 hno⟩,
   ⟨fun e he h1 h2 => lookup_v6_hit v4 v6 a6 h6 e he h1 h2,
    fun hno => lookup_v6_miss v4 v6 a6 h6 hno⟩⟩

/-- Witness for the C1 theorem at a concrete one-entry table per family:
an interior hit in the IPv4 table, a miss above the only IPv6 range. -/
theorem c1_lookup_correct_witness :
    (GeoIpDb.mk [(10, 20, default)] [(30, 40, default)]).lookup_v4 15 =
      some (default : GeoInfo) ∧
    (GeoIpDb.mk [(10, 20, default)] [(30, 40, default)]).lookup_v6 50 = none := by
  have h := c1_lookup_correct [(10, 20, default)] [(30, 40, default)] 15 50
    (by constructor
        · intro e he
          rcases List.mem_singleton.mp he with rfl
          decide
        · exact List.chain'_singleton _)
    (by constructor
        · intro e he
          rcases List.mem_singleton.mp he with rfl
          decide
        · exact List.chain'_singleton _)
  refine ⟨h.1.1 (10, 20, default) (List.mem_singleton.mpr rfl) (by decide) (by decide), ?_⟩
  refine h.2.2 ?_
  intro e he
  rcases List.mem_singleton.mp he with rfl
  decide

/-- The classification every builder produces for country code `DE`. -/
def geoDE : GeoInfo := { country_code := ['D','E'], is_eu := true, region := 1 }

/-- C2 counterexample: duplicating one allocation line produces two equal
adjacent entries, so `entries[0].end < entries[1].start` fails even
though the input was a perfectly ordinary (if redundant) snapshot. -/
theorem c2_counterexample :
    (from_ripe_delegated_str
        ("ripencc|DE|ipv4|46.4.0.0|256|20250101|allocated\nripencc|DE|ipv4|46.4.0.0|256|20250101|allocated".toList)).v4_ranges
      = [(772014080, 772014335, geoDE), (772014080, 772014335, geoDE)] ∧
    ¬ (772014335 < 772014080) := by decide

theorem recordV4Entry_geo (r : IpRange) (e : RangeEntry)
    (h : recordV4Entry r = some e) : e.2.2 = country_geo r.country := by
  unfold recordV4Entry at h
  cases hr : r.start_v4 with
  | none => rw [hr] at h; cases h
  | some s =>
    rw [hr] at h
    injection h with h2
    rw [← h2]

theorem recordV6Entry_geo (r : IpRange) (e : RangeEntry)
    (h : recordV6Entry r = some e) : e.2.2 = country_geo r.country := by
  unfold recordV6Entry at h
  cases hr : r.start_v4 with
  | some s => rw [hr] at h; cases h
  | none =>
    rw [hr] at h
    cases hr6 : r.start_v6 with
    | none => rw [hr6] at h; cases h
    | some s =>
      rw [hr6] at h
      injection h with h2
      rw [← h2]

/-- C2 as amended: on every input, all four construction paths produce
tables that are sorted ascending by start (`entries[i].start ≤
entries[i+1].start` for adjacent entries); the stronger claimed
non-overlap bound `entries[i].end < entries[i+1].start` does not hold in
general (see the counterexample), because the builders only sort and
never merge or reject overlapping blocks. -/
theorem c2_tables_sorted (content buildContent : List Char) :
    List.Chain' (fun e f => e.1 ≤ f.1) (from_ripe_delegated_str content).v4_ranges ∧
    List.Chain' (fun e f => e.1 ≤ f.1) (from_ripe_delegated_str content).v6_ranges ∧
    List.Chain' (fun e f => e.1 ≤ f.1)
      (GeoIpDb.new (ipv4RangesConst buildContent) (ipv6RangesConst buildContent)).v4_ranges ∧
    List.Chain' (fun e f => e.1 ≤ f.1)
      (GeoIpDb.new (ipv4RangesConst buildContent) (ipv6RangesConst buildContent)).v6_ranges := by
  refine ⟨(pairwise_sortByStart _).chain', (pairwise_sortByStart _).chain', ?_, ?_⟩
  · have hbase : List.Pairwise (fun a b => a.1 ≤ b.1) (ipv4RangesConst buildContent) := by
      refine pairwise_key_filterMap _ (fun row => row.1) ?_ _ ?_
      · intro x y hxy
        by_cases h0 : x.2.1 = 0
        · simp [h0] at hxy
        · simp only [h0, if_neg, ite_false] at hxy
          injection hxy with h2
          rw [← h2]
      · exact pairwise_sortByStart _
    have h2 : List.Pairwise (fun e f : RangeEntry => e.1 ≤ f.1)
        ((ipv4RangesConst buildContent).map
          (fun row => (row.1, row.2.1, country_geo row.2.2))) :=
      List.pairwise_map.mpr hbase
    exact h2.chain'
  · have hbase : List.Pairwise (fun a b => a.1 ≤ b.1) (ipv6RangesConst buildContent) :=
      pairwise_sortByStart _
    have h2 : List.Pairwise (fun e f : RangeEntry => e.1 ≤ f.1)
        ((ipv6RangesConst buildContent).map
          (fun row => (row.1, row.2.1, country_geo row.2.2))) :=
      List.pairwise_map.mpr hbase
    exact h2.chain'

/-- C3: the single well-formed IPv4 line round-trips.  `46.4.0.0` is the
numeric address `772014080` and `46.4.0.1` is `772014081`; the parse
yields exactly one record with that start, count `256` and country `DE`,
and the database built from the line classifies `46.4.0.1` as `DE` with
`is_eu = true` (and region `EuropeanUnion = 1`). -/
theorem c3_round_trip :
    parse_ipv4 ("46.4.0.0".toList) = some 772014080 ∧
    parse_ipv4 ("46.4.0.1".toList) = some 772014081 ∧
    parse_ripe_delegated ("ripencc|DE|ipv4|46.4.0.0|256|20250101|allocated".toList) =
      [{ start_v4 := some 772014080, start_v6 := none, count := 256,
         country := ['D','E'] }] ∧
    (from_ripe_delegated_str
        ("ripencc|DE|ipv4|46.4.0.0|256|20250101|allocated".toList)).lookup_v4 772014081 =
      some geoDE ∧
    geoDE.is_eu = true := by decide

/-- C4: contrary to the claim (and to the build-time parser in build.rs,
which has an explicit `if count == 0 { continue; }`), the runtime parser
`parse_ripe_delegated` does not drop an IPv4 line whose count field is
`0`: it produces a record with `count = 0`, and
`from_ripe_delegated_str` then inserts the degenerate entry
`(start, start)` for it — `saturating_sub` turns the end computation
`start + 0 - 1` into `start`, so the never-allocated address `46.4.0.0`
would match. -/
theorem c4_zero_count_kept :
    parse_ripe_delegated ("ripencc|DE|ipv4|46.4.0.0|0|20250101|allocated".toList) =
      [{ start_v4 := some 772014080, start_v6 := none, count := 0,
         country := ['D','E'] }] ∧
    (from_ripe_delegated_str
        ("ripencc|DE|ipv4|46.4.0.0|0|20250101|allocated".toList)).v4_ranges =
      [(772014080, 772014080, geoDE)] := by decide

/-! ## Per-line behaviour of the runtime parser -/

theorem line_record_ipv4_of_count (line : List Char) (c : Nat)
    (hlen : 7 ≤ (splitOnChar '|' line).length)
    (hfam : (splitOnChar '|' line).getD 2 [] = ['i','p','v','4'])
    (hcnt : parse_u32 ((splitOnChar '|' line).getD 4 []) = some c) :
    line_record line = some ⟨parse_ipv4 ((splitOnChar '|' line).getD 3 []),
      none, c, (splitOnChar '|' line).getD 1 []⟩ := by
  simp only [line_record]
  rw [if_neg (by omega), if_pos hfam, hcnt]

theorem line_record_ipv4_of_bad_count (line : List Char)
    (hlen : 7 ≤ (splitOnChar '|' line).length)
    (hfam : (splitOnChar '|' line).getD 2 [] = ['i','p','v','4'])
    (hcnt : parse_u32 ((splitOnChar '|' line).getD 4 []) = none) :
    line_record line = none := by
  simp only [line_record]
  rw [if_neg (by omega), if_pos hfam, hcnt]

theorem line_record_ipv6_of_count (line : List Char) (p : Nat)
    (hlen : 7 ≤ (splitOnChar '|' line).length)
    (hfam : (splitOnChar '|' line).getD 2 [] = ['i','p','v','6'])
    (hcnt : parse_u32 ((splitOnChar '|' line).getD 4 []) = some p) :
    line_record line = some ⟨none, parse_ipv6 ((splitOnChar '|' line).getD 3 []),
      (if u32WrapSub 128 p ≥ 128 then u128Max else 2 ^ u32WrapSub 128 p),
      (splitOnChar '|' line).getD 1 []⟩ := by
  simp only [line_record]
  rw [if_neg (by omega), if_neg (by rw [hfam]; decide), if_pos hfam, hcnt]

theorem line_record_ipv6_of_bad_count (line : List Char)
    (hlen : 7 ≤ (splitOnChar '|' line).length)
    (hfam : (splitOnChar '|' line).getD 2 [] = ['i','p','v','6'])
    (hcnt : parse_u32 ((splitOnChar '|' line).getD 4 []) = none) :
    line_record line = none := by
  simp only [line_record]
  rw [if_neg (by omega), if_neg (by rw [hfam]; decide), if_pos hfam, hcnt]

/-- C5 counterexample: a line whose start-address field does not parse is
NOT skipped.  Only the count parse is guarded by `?`; the address parse
ends in `.ok()` alone, so the line below produces one record (with both
start fields empty) rather than none. -/
theorem c5_counterexample :
    parse_ripe_delegated ("ripencc|DE|ipv4|banana|256|20250101|allocated".toList) =
      [⟨none, none, 256, ['D','E']⟩] ∧
    (parse_ripe_delegated ("ripencc|DE|ipv4|banana|256|20250101|allocated".toList)).length
      ≠ 0 := by decide

/-- C5 as amended: a qualifying line (of either family) whose
count/prefix field fails to parse yields no record (never fatally); a
qualifying line of either family with a parsable count always yields a
record, carrying `parse_ipv4` (resp. `parse_ipv6`) of the address field
as-is — so a malformed start address leaves a record with no start
address, which in turn contributes no entry to either table of a built
database; and one well-formed line plus one line with a non-numeric
count parse to exactly one record. -/
theorem c5_malformed_line_tolerance :
    (∀ line, 7 ≤ (splitOnChar '|' line).length →
      ((splitOnChar '|' line).getD 2 [] = ['i','p','v','4'] ∨
       (splitOnChar '|' line).getD 2 [] = ['i','p','v','6']) →
      parse_u32 ((splitOnChar '|' line).getD 4 []) = none → line_record line = none) ∧
    (∀ line c, 7 ≤ (splitOnChar '|' line).length →
      (splitOnChar '|' line).getD 2 [] = ['i','p','v','4'] →
      parse_u32 ((splitOnChar '|' line).getD 4 []) = some c →
      line_record line = some ⟨parse_ipv4 ((splitOnChar '|' line).getD 3 []), none, c,
        (splitOnChar '|' line).getD 1 []⟩) ∧
    (∀ line p, 7 ≤ (splitOnChar '|' line).length →
      (splitOnChar '|' line).getD 2 [] = ['i','p','v','6'] →
      parse_u32 ((splitOnChar '|' line).getD 4 []) = some p →
      line_record line = some ⟨none, parse_ipv6 ((splitOnChar '|' line).getD 3 []),
        (if u32WrapSub 128 p ≥ 128 then u128Max else 2 ^ u32WrapSub 128 p),
        (splitOnChar '|' line).getD 1 []⟩) ∧
    (∀ r : IpRange, r.start_v4 = none → r.start_v6 = none →
      recordV4Entry r = none ∧ recordV6Entry r = none) ∧
    (parse_ripe_delegated
      ("ripencc|DE|ipv4|46.4.0.0|256|20250101|allocated\nripencc|FR|ipv4|1.0.0.0|abc|20250101|allocated".toList)).length
      = 1 := by
  refine ⟨?_, ?_, ?_, ?_, by decide⟩
  · intro line hlen hfam hcnt
    rcases hfam with hfam | hfam
    · exact line_record_ipv4_of_bad_count line hlen hfam hcnt
    · exact line_record_ipv6_of_bad_count line hlen hfam hcnt
  · intro line c hlen hfam hcnt
    exact line_record_ipv4_of_count line c hlen hfam hcnt
  · intro line p hlen hfam hcnt
    exact line_record_ipv6_of_count line p hlen hfam hcnt
  · intro r h4 h6
    exact ⟨by simp [recordV4Entry, h4], by simp [recordV6Entry, h4, h6]⟩

/-- Witness for the C5 theorem: a concrete line with a non-numeric count
is dropped, and concrete lines of both families with an unparseable
start address still produce a record with no start address. -/
theorem c5_malformed_line_tolerance_witness :
    line_record ("ripencc|DE|ipv4|46.4.0.0|abc|20250101|allocated".toList) = none ∧
    line_record ("ripencc|DE|ipv4|banana|256|20250101|allocated".toList) =
      some ⟨none, none, 256, ['D','E']⟩ ∧
    line_record ("ripencc|DE|ipv6|banana|32|20250101|allocated".toList) =
      some ⟨none, none, 2 ^ 96, ['D','E']⟩ := by
  refine ⟨c5_malformed_line_tolerance.1 _ (by decide) (Or.inl (by decide)) (by decide),
    ?_, ?_⟩
  · rw [c5_malformed_line_tolerance.2.1 _ 256 (by decide) (by decide) (by decide)]
    decide
  · rw [c5_malformed_line_tolerance.2.2.1 _ 32 (by decide) (by decide) (by decide)]
    decide

/-! ## The wrapping subtraction `128 - prefix_len` -/

theorem u32WrapSub_128_of_le (p : Nat) (h : p ≤ 128) : u32WrapSub 128 p = 128 - p := by
  unfold u32WrapSub
  have h32 : (2 : Nat) ^ 32 = 4294967296 := by norm_num
  rw [h32]
  omega

theorem u32WrapSub_128_of_gt (p : Nat) (h1 : 128 < p) (h2 : p < 2 ^ 32) :
    128 ≤ u32WrapSub 128 p := by
  unfold u32WrapSub
  have h32 : (2 : Nat) ^ 32 = 4294967296 := by norm_num
  rw [h32] at h2 ⊢
  omega

/-- C6 counterexample: the ipv6 branch IS reached with a prefix length
greater than `128` — the line below survives every guard, its prefix
field parses to `129`, and a record is produced.  The subtraction
`128 - prefix_len` performed there in `u32` therefore underflows
(`128 < 129`), contrary to the claim; only the wrapping release-mode
semantics (with the wrapped value caught by the `>= 128` saturation
check) keeps the computation from misbehaving further. -/
theorem c6_counterexample :
    (splitOnChar '|' ("ripencc|DE|ipv6|::|129|20250101|allocated".toList)).getD 2 []
      = ['i','p','v','6'] ∧
    parse_u32 ((splitOnChar '|' ("ripencc|DE|ipv6|::|129|20250101|allocated".toList)).getD 4 [])
      = some 129 ∧
    parse_ripe_delegated ("ripencc|DE|ipv6|::|129|20250101|allocated".toList) =
      [⟨none, some 0, u128Max, ['D','E']⟩] ∧
    ¬ (129 ≤ 128) := by decide

/-- C6 as amended: parsing terminates on every input, but the `u32`
subtraction `128 - prefix_len` does underflow for prefix lengths above
`128`.  Under the wrapping (release-mode) semantics modelled here the
wrapped difference is at least `128`, so the saturation branch fires and
the line still produces a record whose count is `u128::MAX`; with
overflow checks enabled (debug builds) the same subtraction would panic
instead. -/
theorem c6_wrapping_sub_saturates (p : Nat) (h1 : 128 < p) (h2 : p < 2 ^ 32) :
    128 ≤ u32WrapSub 128 p ∧
    (∀ line, 7 ≤ (splitOnChar '|' line).length →
      (splitOnChar '|' line).getD 2 [] = ['i','p','v','6'] →
      parse_u32 ((splitOnChar '|' line).getD 4 []) = some p →
      line_record line = some ⟨none, parse_ipv6 ((splitOnChar '|' line).getD 3 []), u128Max,
        (splitOnChar '|' line).getD 1 []⟩) := by
  have hw := u32WrapSub_128_of_gt p h1 h2
  refine ⟨hw, ?_⟩
  intro line hlen hfam hcnt
  rw [line_record_ipv6_of_count line p hlen hfam hcnt]
  rw [if_pos hw]

/-- Witness for the C6 theorem at the concrete prefix length `129`. -/
theorem c6_wrapping_sub_saturates_witness :
    128 ≤ u32WrapSub 128 129 ∧
    line_record ("ripencc|DE|ipv6|::|129|20250101|allocated".toList) =
      some ⟨none, some 0, u128Max, ['D','E']⟩ := by
  have h := c6_wrapping_sub_saturates 129 (by decide) (by norm_num)
  refine ⟨h.1, ?_⟩
  rw [h.2 _ (by decide) (by decide) (by decide)]
  decide

/-- C7: for an ipv6 line with prefix length `p`, `1 ≤ p ≤ 128` gives an
address count of exactly `2 ^ (128 - p)`, while `p = 0` saturates the
count to `u128::MAX = 2 ^ 128 - 1`; concretely, the RIPE line for
`2a01:4f8::/32` parses to a count of `2 ^ 96` and the address
`2a01:4f8::1` (numerically `704709880 * 2 ^ 96 + 1`) is matched by the
database built from that line. -/
theorem c7_ipv6_count_conversion :
    (∀ line p, 7 ≤ (splitOnChar '|' line).length →
      (splitOnChar '|' line).getD 2 [] = ['i','p','v','6'] →
      parse_u32 ((splitOnChar '|' line).getD 4 []) = some p →
      1 ≤ p → p ≤ 128 →
      line_record line = some ⟨none, parse_ipv6 ((splitOnChar '|' line).getD 3 []),
        2 ^ (128 - p), (splitOnChar '|' line).getD 1 []⟩) ∧
    (∀ line, 7 ≤ (splitOnChar '|' line).length →
      (splitOnChar '|' line).getD 2 [] = ['i','p','v','6'] →
      parse_u32 ((splitOnChar '|' line).getD 4 []) = some 0 →
      line_record line = some ⟨none, parse_ipv6 ((splitOnChar '|' line).getD 3 []),
        2 ^ 128 - 1, (splitOnChar '|' line).getD 1 []⟩) ∧
    parse_ripe_delegated ("ripencc|DE|ipv6|2a01:4f8::|32|20250101|allocated".toList) =
      [⟨none, some (704709880 * 2 ^ 96), 2 ^ 96, ['D','E']⟩] ∧
    (from_ripe_delegated_str
        ("ripencc|DE|ipv6|2a01:4f8::|32|20250101|allocated".toList)).lookup_v6
      (704709880 * 2 ^ 96 + 1) = some geoDE := by
  refine ⟨?_, ?_, by decide, by decide⟩
  · intro line p hlen hfam hcnt hp1 hp2
    rw [line_record_ipv6_of_count line p hlen hfam hcnt]
    rw [u32WrapSub_128_of_le p hp2]
    rw [if_neg (by omega)]
  · intro line hlen hfam hcnt
    rw [line_record_ipv6_of_count line 0 hlen hfam hcnt]
    rw [u32WrapSub_128_of_le 0 (by omega)]
    rw [if_pos (by omega)]
    rfl

/-- Witness for the C7 theorem: the general prefix-conversion clauses at
the concrete line for `2a01:4f8::/32` and at a concrete `/0` line. -/
theorem c7_ipv6_count_conversion_witness :
    line_record ("ripencc|DE|ipv6|2a01:4f8::|32|20250101|allocated".toList) =
      some ⟨none, some (704709880 * 2 ^ 96), 2 ^ 96, ['D','E']⟩ ∧
    line_record ("ripencc|DE|ipv6|::|0|20250101|allocated".toList) =
      some ⟨none, some 0, 2 ^ 128 - 1, ['D','E']⟩ := by
  constructor
  · rw [c7_ipv6_count_conversion.1 _ 32 (by decide) (by decide) (by decide)
      (by omega) (by omega)]
    decide
  · rw [c7_ipv6_count_conversion.2.1 _ (by decide) (by decide) (by decide)]
    decide

/-- C8 counterexample: with the pipe fields numbered from 1 as the claim
fixes them, field 1 of a well-formed line is the registry (`ripencc`),
yet the record produced for that line carries country `DE` — the parser
does not read the country code from field 1. -/
theorem c8_counterexample :
    (parse_ripe_delegated
        ("ripencc|DE|ipv4|46.4.0.0|256|20250101|allocated".toList)).map IpRange.country
      = [['D','E']] ∧
    (splitOnChar '|' ("ripencc|DE|ipv4|46.4.0.0|256|20250101|allocated".toList)).getD 0 []
      = "ripencc".toList ∧
    ['D','E'] ≠ "ripencc".toList := by decide

/-- C8 as amended: numbering the pipe-delimited fields from 0 (so from 1
they are fields 2, 3, 4 and 5), a qualifying line is read as: country
code from field 1, family tag from field 2, start address from field 3
and count/prefix from field 4 — one position later than the claim's
1-based field numbers state. -/
theorem c8_field_layout (line : List Char) (c p : Nat)
    (hlen : 7 ≤ (splitOnChar '|' line).length) :
    ((splitOnChar '|' line).getD 2 [] = ['i','p','v','4'] →
      parse_u32 ((splitOnChar '|' line).getD 4 []) = some c →
      line_record line = some ⟨parse_ipv4 ((splitOnChar '|' line).getD 3 []), none, c,
        (splitOnChar '|' line).getD 1 []⟩) ∧
    ((splitOnChar '|' line).getD 2 [] = ['i','p','v','6'] →
      parse_u32 ((splitOnChar '|' line).getD 4 []) = some p →
      line_record line = some ⟨none, parse_ipv6 ((splitOnChar '|' line).getD 3 []),
        (if u32WrapSub 128 p ≥ 128 then u128Max else 2 ^ u32WrapSub 128 p),
        (splitOnChar '|' line).getD 1 []⟩) :=
  ⟨fun hf hc => line_record_ipv4_of_count line c hlen hf hc,
   fun hf hc => line_record_ipv6_of_count line p hlen hf hc⟩

/-- Witness for the C8 theorem at the concrete well-formed IPv4 line. -/
theorem c8_field_layout_witness :
    line_record ("ripencc|DE|ipv4|46.4.0.0|256|20250101|allocated".toList) =
      some ⟨some 772014080, none, 256, ['D','E']⟩ := by
  rw [(c8_field_layout ("ripencc|DE|ipv4|46.4.0.0|256|20250101|allocated".toList) 256 0
      (by decide)).1 (by decide) (by decide)]
  decide

/-- C9: `is_eu` is the `is_eu` projection of a successful lookup and
`false` when the lookup finds nothing; it is a total function, so no
panic is possible. -/
theorem c9_is_eu_default (db : GeoIpDb) (ip : IpAddr) :
    (db.lookup ip = none → db.is_eu ip = false) ∧
    (∀ g, db.lookup ip = some g → db.is_eu ip = g.is_eu) := by
  constructor
  · intro h
    simp [GeoIpDb.is_eu, h]
  · intro g h
    simp [GeoIpDb.is_eu, h]

/-- Witness for the C9 theorem: the empty database misses every address,
so `is_eu` is `false` there. -/
theorem c9_is_eu_default_witness :
    (GeoIpDb.mk [] []).is_eu (IpAddr.v4 0) = false :=
  (c9_is_eu_default (GeoIpDb.mk [] []) (IpAddr.v4 0)).1 (by decide)

/-! ## The EU flag and the region tag -/

theorem country_geo_region_one (c : List Char) :
    (country_geo c).is_eu = eu_contains c ∧
    ((country_geo c).region = 1 ↔ eu_contains c = true) := by
  refine ⟨rfl, ?_⟩
  show (determine_region c).code = 1 ↔ eu_contains c = true
  by_cases h : eu_contains c = true
  · simp [determine_region, h, Region.code]
  · simp only [determine_region, h]
    split_ifs <;> simp_all [Region.code]

/-- C10: every classification stored by either constructor satisfies
`is_eu = true` exactly when the stored region tag is the
`EuropeanUnion` discriminant `1`, both fields being computed from
membership of the record's country code in the static `EU_COUNTRIES`
list. -/
theorem c10_is_eu_iff_region (content : List Char)
    (v4c v6c : List (Nat × Nat × List Char)) :
    (∀ e ∈ (from_ripe_delegated_str content).v4_ranges,
      e.2.2.is_eu = true ↔ e.2.2.region = 1) ∧
    (∀ e ∈ (from_ripe_delegated_str content).v6_ranges,
      e.2.2.is_eu = true ↔ e.2.2.region = 1) ∧
    (∀ e ∈ (GeoIpDb.new v4c v6c).v4_ranges,
      e.2.2.is_eu = true ↔ e.2.2.region = 1) ∧
    (∀ e ∈ (GeoIpDb.new v4c v6c).v6_ranges,
      e.2.2.is_eu = true ↔ e.2.2.region = 1) ∧
    (∀ c, (country_geo c).is_eu = eu_contains c ∧
      ((country_geo c).region = 1 ↔ eu_contains c = true)) := by
  have key : ∀ c : List Char, (country_geo c).is_eu = true ↔ (country_geo c).region = 1 := by
    intro c
    obtain ⟨h1, h2⟩ := country_geo_region_one c
    rw [h1, h2]
  refine ⟨?_, ?_, ?_, ?_, country_geo_region_one⟩
  · intro e he
    rcases List.mem_filterMap.mp ((mem_sortByStart _ e).mp he) with ⟨r, _, hr⟩
    rw [recordV4Entry_geo r e hr]
    exact key r.country
  · intro e he
    rcases List.mem_filterMap.mp ((mem_sortByStart _ e).mp he) with ⟨r, _, hr⟩
    rw [recordV6Entry_geo r e hr]
    exact key r.country
  · intro e he
    rcases List.mem_map.mp he with ⟨row, _, hrow⟩
    rw [← hrow]
    exact key row.2.2
  · intro e he
    rcases List.mem_map.mp he with ⟨row, _, hrow⟩
    rw [← hrow]
    exact key row.2.2

/-- Witness for the C10 theorem: the entry built from a concrete `DE`
line, and the `country_geo` clause at the concrete code `FR`. -/
theorem c10_is_eu_iff_region_witness :
    (geoDE.is_eu = true ↔ geoDE.region = 1) ∧
    (country_geo ['F','R']).is_eu = eu_contains ['F','R'] := by
  have h := c10_is_eu_iff_region
    ("ripencc|DE|ipv4|46.4.0.0|256|20250101|allocated".toList) [] []
  refine ⟨?_, (h.2.2.2.2 ['F','R']).1⟩
  have hmem : (772014080, 772014335, geoDE) ∈
      (from_ripe_delegated_str
        ("ripencc|DE|ipv4|46.4.0.0|256|20250101|allocated".toList)).v4_ranges := by
    decide
  exact h.1 _ hmem
